import Mathlib

/-!
Verification development for the webcam-sonification audio engine
(`src/audio/AudioEngine.ts`).

The engine is embedded shallowly:

* JavaScript numbers are modelled as `Option ℝ`: `some x` is the finite
  value `x`, `none` stands for a non-finite value (`NaN` or `±Infinity`).
  The only operation that can turn finite operands non-finite in the
  embedded code is division by zero (`0/0 = NaN`, `x/0 = ±Infinity`),
  which `jsDiv` maps to `none`.  Every other arithmetic operation on a
  non-finite operand yields a non-finite result in JavaScript for the
  operand patterns that occur in this code, so the operations below
  propagate `none`.  (JavaScript's `finite / ±Infinity = 0` and
  `exp (-Infinity) = 0` would be exceptions, but the engine never divides
  by a computed quantity and never calls `exp` on a value that can be
  `-Infinity`, since `minFreq > 0`.)
* An `ImageData` frame is a pair of dimensions plus a total function from
  byte index to channel value; a real frame's buffer has exactly
  `4·width·height` entries and every loop of the engine only reads
  indices inside that range in the regimes considered by the theorems.
* The mutable per-oscillator arrays (`amplitudes`, `prevEdgeMagnitudes`,
  gain values, oscillator frequency values) become lists threaded through
  explicit state (`EngineState`).
-/

/-- JavaScript addition on possibly non-finite numbers. -/
def jsAdd : Option ℝ → Option ℝ → Option ℝ
  | some a, some b => some (a + b)
  | _, _ => none

/-- JavaScript multiplication on possibly non-finite numbers. -/
def jsMul : Option ℝ → Option ℝ → Option ℝ
  | some a, some b => some (a * b)
  | _, _ => none

/-- JavaScript division on possibly non-finite numbers.  Division by zero
produces a non-finite value (`0/0 = NaN`, `x/0 = ±Infinity`), modelled as
`none`.  The engine never divides by a value that can itself be
non-finite (all divisors are pixel counts, array lengths or constants),
so the `none`-divisor branch is unreachable in the embedded code. -/
noncomputable def jsDiv : Option ℝ → Option ℝ → Option ℝ
  | some a, some b => if b = 0 then none else some (a / b)
  | _, _ => none

/-- `Math.exp` on possibly non-finite numbers (`exp NaN = NaN`,
`exp Infinity = Infinity`; the argument is never `-Infinity` here). -/
noncomputable def jsExp : Option ℝ → Option ℝ
  | some a => some (Real.exp a)
  | none => none

/-- The exponential-moving-average update
`amplitude * α + target * (1 - α)` as the engine's per-oscillator
smoothing statement `this.amplitudes[i] = this.amplitudes[i] * smoothing
+ targetAmp * (1 - smoothing)` computes it. -/
def emaJs (alpha : ℝ) (amp target : Option ℝ) : Option ℝ :=
  jsAdd (jsMul amp (some alpha)) (jsMul target (some (1 - alpha)))

/-- An `ImageData` frame: dimensions plus the RGBA byte buffer, viewed as
a total function from byte index to channel value.  A real buffer has
length `4·width·height`; all reads performed by the engine stay inside
that range under the side conditions of the theorems below. -/
structure Frame where
  width : ℕ
  height : ℕ
  data : ℕ → ℝ

/-- The `SynthParams` fields used by the synthesis methods. -/
structure Params where
  oscillatorCount : ℕ
  angle : ℝ
  speed : ℝ
  minFreq : ℝ
  maxFreq : ℝ

/-- All channel values of the frame buffer lie in `[0, 255]`
(`Uint8ClampedArray` contents). -/
def Frame.wfData (f : Frame) : Prop :=
  ∀ n, 0 ≤ f.data n ∧ f.data n ≤ 255

/-- Byte index of pixel `(x, y)`: `(y * width + x) * 4`. -/
def pixIdx (w x y : ℕ) : ℕ := (y * w + x) * 4

/-- Luminance of pixel `(x, y)`:
`(data[idx] + data[idx+1] + data[idx+2]) / 3`. -/
noncomputable def grayAt (f : Frame) (x y : ℕ) : ℝ :=
  (f.data (pixIdx f.width x y) + f.data (pixIdx f.width x y + 1) +
    f.data (pixIdx f.width x y + 2)) / 3

/-- Single colour channel `c` (0 = R, 1 = G, 2 = B) of pixel `(x, y)`. -/
def chanAt (f : Frame) (c x y : ℕ) : ℝ :=
  f.data (pixIdx f.width x y + c)

/-- The loop `for (i = 0; i < l.length; i++) l[i] = g(i, l[i])`, started
at index `k`: rewrite each element in place using its index. -/
def loopMap (g : ℕ → α → α) : ℕ → List α → List α
  | _, [] => []
  | k, a :: t => g k a :: loopMap g (k + 1) t

/-- Lower row bound of horizontal band `b`:
`Math.floor(b * (height / count))` with `bandHeight = height / count`.
(`count = 0` never occurs: `oscillatorCount ≥ 1` is a data-model
invariant.) -/
def bandLowY (count h b : ℕ) : ℕ :=
  (⌊(b : ℚ) * ((h : ℚ) / (count : ℚ))⌋).toNat

/-- Band read by oscillator `i`: `bandIndex = count - 1 - i`
(bottom-to-top ordering). -/
def bandIdx (count i : ℕ) : ℕ := count - 1 - i

/-- Additive mode, band luminance sum for oscillator `i`: rows
`[floor(bandIndex*bandHeight), floor((bandIndex+1)*bandHeight))`, all
columns. -/
noncomputable def additiveBandSum (f : Frame) (count i : ℕ) : ℝ :=
  ∑ y ∈ Finset.Ico (bandLowY count f.height (bandIdx count i))
      (bandLowY count f.height (bandIdx count i + 1)),
    ∑ x ∈ Finset.range f.width, grayAt f x y

/-- Number of loop iterations (pixels) of the band scan. -/
def additiveBandCnt (f : Frame) (count i : ℕ) : ℕ :=
  (bandLowY count f.height (bandIdx count i + 1) -
    bandLowY count f.height (bandIdx count i)) * f.width

/-- Additive mode target amplitude `(sum / count / 255) * 0.7`; a
zero-pixel band gives `0/0 = NaN` (`none`). -/
noncomputable def additiveTarget (f : Frame) (count i : ℕ) : Option ℝ :=
  jsMul (jsDiv (jsDiv (some (additiveBandSum f count i))
    (some (additiveBandCnt f count i))) (some 255)) (some 0.7)

/-- Spectral mode row for oscillator `i`:
`y = Math.floor((i / count) * height)`. -/
def spectralRowY (count h i : ℕ) : ℕ :=
  (⌊((i : ℚ) / (count : ℚ)) * (h : ℚ)⌋).toNat

/-- Spectral mode, luminance sum over the single row. -/
noncomputable def spectralRowSum (f : Frame) (count i : ℕ) : ℝ :=
  ∑ x ∈ Finset.range f.width, grayAt f x (spectralRowY count f.height i)

/-- Spectral mode target amplitude `(sum / width / 255) * 0.7`; a
zero-width frame gives `0/0 = NaN` (`none`). -/
noncomputable def spectralTarget (f : Frame) (count i : ℕ) : Option ℝ :=
  jsMul (jsDiv (jsDiv (some (spectralRowSum f count i))
    (some (f.width : ℝ))) (some 255)) (some 0.7)

/-- RGB-additive mode colour channel for oscillator `i`, with
`third = Math.floor(count / 3)`: R for `i < third`, G for
`i < third * 2`, else B. -/
def rgbChannel (count i : ℕ) : ℕ :=
  if i < count / 3 then 0 else if i < count / 3 * 2 then 1 else 2

/-- RGB-additive mode, single-channel band sum for oscillator `i`. -/
noncomputable def rgbBandSum (f : Frame) (count i : ℕ) : ℝ :=
  ∑ y ∈ Finset.Ico (bandLowY count f.height (bandIdx count i))
      (bandLowY count f.height (bandIdx count i + 1)),
    ∑ x ∈ Finset.range f.width, chanAt f (rgbChannel count i) x y

/-- RGB-additive mode target amplitude `(sum / count / 255) * 0.7`. -/
noncomputable def rgbTarget (f : Frame) (count i : ℕ) : Option ℝ :=
  jsMul (jsDiv (jsDiv (some (rgbBandSum f count i))
    (some (additiveBandCnt f count i))) (some 255)) (some 0.7)

/-- JavaScript's remainder `a % b` for the non-negative operands used in
the hue computation (where it coincides with `a - b * floor(a / b)`). -/
noncomputable def jsMod (a b : ℝ) : ℝ := a - b * ⌊a / b⌋

/-- Normalized R channel of a pixel. -/
noncomputable def pixR (f : Frame) (x y : ℕ) : ℝ := f.data (pixIdx f.width x y) / 255

/-- Normalized G channel of a pixel. -/
noncomputable def pixG (f : Frame) (x y : ℕ) : ℝ := f.data (pixIdx f.width x y + 1) / 255

/-- Normalized B channel of a pixel. -/
noncomputable def pixB (f : Frame) (x y : ℕ) : ℝ := f.data (pixIdx f.width x y + 2) / 255

/-- Hue in `[0,1)` turns, exactly as the HSV-mode inner loop computes it
(`h = 0` when the chroma `d` is zero; `max === r` checked first, then
`max === g`). -/
noncomputable def hsvHue (r g b : ℝ) : ℝ :=
  let mx := max r (max g b)
  let mn := min r (min g b)
  let d := mx - mn
  if d = 0 then 0
  else
    (if mx = r then jsMod ((g - b) / d + 6) 6
     else if mx = g then (b - r) / d + 2
     else (r - g) / d + 4) / 6

/-- Saturation `d / max` (0 when `max = 0`). -/
noncomputable def hsvSat (r g b : ℝ) : ℝ :=
  let mx := max r (max g b)
  let mn := min r (min g b)
  if mx = 0 then 0 else (mx - mn) / mx

/-- Value `max r g b`. -/
noncomputable def hsvVal (r g b : ℝ) : ℝ := max r (max g b)

/-- HSV mode: band sum of a per-pixel statistic `stat`. -/
noncomputable def hsvBandSum (f : Frame) (count i : ℕ) (stat : ℝ → ℝ → ℝ → ℝ) : ℝ :=
  ∑ y ∈ Finset.Ico (bandLowY count f.height (bandIdx count i))
      (bandLowY count f.height (bandIdx count i + 1)),
    ∑ x ∈ Finset.range f.width, stat (pixR f x y) (pixG f x y) (pixB f x y)

/-- HSV mode frequency modulation `0.8 + avgHue * 0.4`
(`NaN` when the band is empty). -/
noncomputable def hsvFreqMod (f : Frame) (count i : ℕ) : Option ℝ :=
  jsAdd (some 0.8) (jsMul (jsDiv (some (hsvBandSum f count i hsvHue))
    (some (additiveBandCnt f count i))) (some 0.4))

/-- HSV mode target amplitude `avgSat * avgVal * 0.7`
(`NaN` when the band is empty). -/
noncomputable def hsvTarget (f : Frame) (count i : ℕ) : Option ℝ :=
  jsMul (jsMul (jsDiv (some (hsvBandSum f count i hsvSat))
      (some (additiveBandCnt f count i)))
    (jsDiv (some (hsvBandSum f count i hsvVal))
      (some (additiveBandCnt f count i)))) (some 0.7)

/-- Pulse mode: the 4-neighbour gradient magnitude at interior pixel
`(x, y)` (callers guarantee `x ≥ 1`, `y ≥ 1`). -/
noncomputable def gradMag (f : Frame) (x y : ℕ) : ℝ :=
  Real.sqrt ((grayAt f (x + 1) y - grayAt f (x - 1) y) ^ 2 +
    (grayAt f x (y + 1) - grayAt f x (y - 1)) ^ 2)

/-- Pulse mode: number of interior pixels of the band scanned by the
double loop `y ∈ [startY+1, endY-1)`, `x ∈ [1, width-1)` (truncated
subtraction matches the loop never running when bounds cross). -/
def pulseCnt (f : Frame) (count i : ℕ) : ℕ :=
  (Finset.Ico (bandLowY count f.height (bandIdx count i) + 1)
    (bandLowY count f.height (bandIdx count i + 1) - 1)).card *
  (Finset.Ico 1 (f.width - 1)).card

/-- Pulse mode: sum of gradient magnitudes over the band interior. -/
noncomputable def pulseEdgeSum (f : Frame) (count i : ℕ) : ℝ :=
  ∑ y ∈ Finset.Ico (bandLowY count f.height (bandIdx count i) + 1)
      (bandLowY count f.height (bandIdx count i + 1) - 1),
    ∑ x ∈ Finset.Ico 1 (f.width - 1), gradMag f x y

/-- Pulse mode edge magnitude
`count > 0 ? edgeSum / count / 255 : 0` — explicitly guarded, so always
a finite number. -/
noncomputable def pulseEdgeMag (f : Frame) (count i : ℕ) : ℝ :=
  if 0 < pulseCnt f count i
  then pulseEdgeSum f count i / (pulseCnt f count i : ℝ) / 255
  else 0

/-- Scanline coordinates `{ x1, y1, x2, y2 }` returned by the two
scanline modes. -/
structure ScanCoords where
  x1 : ℝ
  y1 : ℝ
  x2 : ℝ
  y2 : ℝ

/-- The rotating sampling line of the scanline modes: from the frame
center, offset `(scanPosition - 0.5) * diagonal` along the perpendicular
`(-sin, cos)` of the direction `(cos, sin)`, extended `± diagonal` along
the direction, with `diagonal = sqrt(width² + height²)`. -/
noncomputable def scanlineEndpoints (w h angle pos : ℝ) : ScanCoords :=
  let angleRad := angle * Real.pi / 180
  let c := Real.cos angleRad
  let s := Real.sin angleRad
  let centerX := w / 2
  let centerY := h / 2
  let diagonal := Real.sqrt (w * w + h * h)
  let offset := (pos - 0.5) * diagonal
  ⟨centerX + offset * (-s) - diagonal * c,
   centerY + offset * c - diagonal * s,
   centerX + offset * (-s) + diagonal * c,
   centerY + offset * c + diagonal * s⟩

/-- Scan position advance:
`scanPosition += dt * speed * 0.5; if (> 1) -= 1`, with
`dt = (now - lastFrameTime) / 1000`. -/
noncomputable def advanceScanPos (pos lastTime now speed : ℝ) : ℝ :=
  let sp := pos + (now - lastTime) / 1000 * speed * 0.5
  if sp > 1 then sp - 1 else sp

/-- Integer pixel coordinates of line sample `i` of 256:
`floor(start + (i / 255) * (end - start))` in each axis. -/
noncomputable def sampleXY (lc : ScanCoords) (i : ℕ) : ℤ × ℤ :=
  (⌊lc.x1 + (i : ℝ) / 255 * (lc.x2 - lc.x1)⌋,
   ⌊lc.y1 + (i : ℝ) / 255 * (lc.y2 - lc.y1)⌋)

/-- The in-frame test `x >= 0 && x < width && y >= 0 && y < height` for
line sample `i`. -/
def sampleInB (f : Frame) (lc : ScanCoords) (i : ℕ) : Prop :=
  0 ≤ (sampleXY lc i).1 ∧ (sampleXY lc i).1 < (f.width : ℤ) ∧
    0 ≤ (sampleXY lc i).2 ∧ (sampleXY lc i).2 < (f.height : ℤ)

noncomputable instance (f : Frame) (lc : ScanCoords) (i : ℕ) : Decidable (sampleInB f lc i) := by
  unfold sampleInB
  infer_instance

/-- Scanline mode luminance sample `i`: `gray / 255` for an in-frame
sample, `0` otherwise. -/
noncomputable def scanlineSample (f : Frame) (lc : ScanCoords) (i : ℕ) : ℝ :=
  if sampleInB f lc i
  then grayAt f (sampleXY lc i).1.toNat (sampleXY lc i).2.toNat / 255
  else 0

/-- The 256-entry `samples` array of scanline mode. -/
noncomputable def scanlineSamples (f : Frame) (lc : ScanCoords) : List ℝ :=
  (List.range 256).map (scanlineSample f lc)

/-- Sample index read for oscillator `i`:
`Math.floor((i / count) * 256)` — always `< 256` when `i < count`, so the
array read never goes out of range in the loop. -/
def scanSampleIdx (count i : ℕ) : ℕ :=
  (⌊(i : ℚ) / (count : ℚ) * 256⌋).toNat

/-- Scanline mode target amplitude: the single sample at
`scanSampleIdx`, times `0.5`. -/
noncomputable def scanlineTarget (samples : List ℝ) (count i : ℕ) : ℝ :=
  samples.getD (scanSampleIdx count i) 0 * 0.5

/-- Scanline-color: sum of channel `c` over the in-frame samples of the
line. -/
noncomputable def scChanSum (f : Frame) (lc : ScanCoords) (c : ℕ) : ℝ :=
  ∑ i ∈ (Finset.range 256).filter (fun i => sampleInB f lc i),
    f.data (pixIdx f.width (sampleXY lc i).1.toNat (sampleXY lc i).2.toNat + c)

/-- Scanline-color: number of in-frame samples (`count` in the source). -/
noncomputable def scCount (f : Frame) (lc : ScanCoords) : ℕ :=
  ((Finset.range 256).filter (fun i => sampleInB f lc i)).card

/-- Scanline-color per-channel amplitude `(sum / count / 255) * 0.4`
(only evaluated under the `count > 0` guard). -/
noncomputable def scChanAmp (f : Frame) (lc : ScanCoords) (c : ℕ) : ℝ :=
  scChanSum f lc c / (scCount f lc : ℝ) / 255 * 0.4

/-- Scanline-color target for oscillator `i`: thirds of the oscillator
range map to the R, G, B channel amplitudes. -/
noncomputable def scTargetAmp (f : Frame) (lc : ScanCoords) (count i : ℕ) : ℝ :=
  if i < count / 3 then scChanAmp f lc 0
  else if i < count / 3 * 2 then scChanAmp f lc 1
  else scChanAmp f lc 2

/-- The engine state mutated by the synthesis methods.  `gains` holds
`oscillatorGains[i].gain.value`, `oscFreqValues` holds
`oscillators[i].frequency.value`, `frequencies` the allocated frequency
list; the `has…` flags model which runtime objects are currently held. -/
structure EngineState where
  isPlaying : Bool
  amplitudes : List (Option ℝ)
  prevEdgeMagnitudes : List (Option ℝ)
  gains : List (Option ℝ)
  oscFreqValues : List (Option ℝ)
  frequencies : List (Option ℝ)
  scanPosition : ℝ
  lastFrameTime : ℝ
  customWaveformData : List ℝ
  hasContext : Bool
  hasProcessor : Bool
  hasAnalyser : Bool
  hasGainNode : Bool

/-- `synthesizeAdditive`: per-band mean luminance → EMA with smoothing
0.8, then copy each new amplitude into the corresponding gain. -/
noncomputable def synthesizeAdditive (s : EngineState) (f : Frame) (p : Params) : EngineState :=
  if s.isPlaying then
    let count := p.oscillatorCount
    let amps := loopMap (fun i a =>
      if i < count then emaJs 0.8 a (additiveTarget f count i) else a) 0 s.amplitudes
    { s with amplitudes := amps,
             gains := loopMap (fun i g =>
               if i < count then amps.getD i none else g) 0 s.gains }
  else s

/-- `synthesizeSpectral`: per-row mean luminance → EMA with smoothing
0.8. -/
noncomputable def synthesizeSpectral (s : EngineState) (f : Frame) (p : Params) : EngineState :=
  if s.isPlaying then
    let count := p.oscillatorCount
    let amps := loopMap (fun i a =>
      if i < count then emaJs 0.8 a (spectralTarget f count i) else a) 0 s.amplitudes
    { s with amplitudes := amps,
             gains := loopMap (fun i g =>
               if i < count then amps.getD i none else g) 0 s.gains }
  else s

/-- `synthesizeRGBAdditive`: per-band single-channel mean → EMA with
smoothing 0.8. -/
noncomputable def synthesizeRGBAdditive (s : EngineState) (f : Frame) (p : Params) : EngineState :=
  if s.isPlaying then
    let count := p.oscillatorCount
    let amps := loopMap (fun i a =>
      if i < count then emaJs 0.8 a (rgbTarget f count i) else a) 0 s.amplitudes
    { s with amplitudes := amps,
             gains := loopMap (fun i g =>
               if i < count then amps.getD i none else g) 0 s.gains }
  else s

/-- `synthesizeHSV`: per-band mean saturation·value → EMA with smoothing
0.8; also writes `frequencies[i] * (0.8 + avgHue * 0.4)` into each
oscillator's frequency. -/
noncomputable def synthesizeHSV (s : EngineState) (f : Frame) (p : Params) : EngineState :=
  if s.isPlaying then
    let count := p.oscillatorCount
    let amps := loopMap (fun i a =>
      if i < count then emaJs 0.8 a (hsvTarget f count i) else a) 0 s.amplitudes
    { s with amplitudes := amps,
             oscFreqValues := loopMap (fun i v =>
               if i < count then jsMul (s.frequencies.getD i none) (hsvFreqMod f count i)
               else v) 0 s.oscFreqValues,
             gains := loopMap (fun i g =>
               if i < count then amps.getD i none else g) 0 s.gains }
  else s

/-- `synthesizePulse`: onset detector.  `delta = max(0, edgeMag - prev)`
(`prevEdgeMagnitudes[i] || 0` maps a missing or non-finite entry — and a
stored 0 — to 0); attack sets the amplitude to `min(0.7, delta * 5)`,
release multiplies it by 0.85; the previous magnitude is overwritten on
both branches. -/
noncomputable def synthesizePulse (s : EngineState) (f : Frame) (p : Params) : EngineState :=
  if s.isPlaying then
    let count := p.oscillatorCount
    let amps := loopMap (fun i a =>
      if i < count then
        let delta := max 0 (pulseEdgeMag f count i -
          ((s.prevEdgeMagnitudes.getD i none).getD 0))
        if delta > 0.02 then some (min 0.7 (delta * 5)) else jsMul a (some 0.85)
      else a) 0 s.amplitudes
    { s with amplitudes := amps,
             prevEdgeMagnitudes := loopMap (fun i q =>
               if i < count then some (pulseEdgeMag f count i) else q) 0
               s.prevEdgeMagnitudes,
             gains := loopMap (fun i g =>
               if i < count then amps.getD i none else g) 0 s.gains }
  else s

/-- `synthesizeScanline`: advance the scan position, sample the line,
EMA with smoothing 0.7 on single-sample targets, return the endpoints;
when not playing, return the state unchanged with the zero sentinel
coordinates. -/
noncomputable def synthesizeScanline (s : EngineState) (f : Frame) (p : Params) (now : ℝ) :
    EngineState × ScanCoords :=
  if s.isPlaying then
    let pos := advanceScanPos s.scanPosition s.lastFrameTime now p.speed
    let lc := scanlineEndpoints (f.width : ℝ) (f.height : ℝ) p.angle pos
    let samples := scanlineSamples f lc
    let count := p.oscillatorCount
    let amps := loopMap (fun i a =>
      if i < count then emaJs 0.7 a (some (scanlineTarget samples count i)) else a)
      0 s.amplitudes
    ({ s with scanPosition := pos, lastFrameTime := now, amplitudes := amps,
              gains := loopMap (fun i g =>
                if i < count then amps.getD i none else g) 0 s.gains }, lc)
  else (s, ⟨0, 0, 0, 0⟩)

/-- `synthesizeScanlineColor`: advance the scan position; when at least
one line sample is in frame, EMA with smoothing 0.8 on the per-third
channel amplitudes, otherwise skip the whole amplitude block; always
return the endpoints (zero sentinel when not playing). -/
noncomputable def synthesizeScanlineColor (s : EngineState) (f : Frame) (p : Params) (now : ℝ) :
    EngineState × ScanCoords :=
  if s.isPlaying then
    let pos := advanceScanPos s.scanPosition s.lastFrameTime now p.speed
    let lc := scanlineEndpoints (f.width : ℝ) (f.height : ℝ) p.angle pos
    if 0 < scCount f lc then
      let count := p.oscillatorCount
      let amps := loopMap (fun i a =>
        if i < count then emaJs 0.8 a (some (scTargetAmp f lc count i)) else a)
        0 s.amplitudes
      ({ s with scanPosition := pos, lastFrameTime := now, amplitudes := amps,
                gains := loopMap (fun i g =>
                  if i < count then amps.getD i none else g) 0 s.gains }, lc)
    else ({ s with scanPosition := pos, lastFrameTime := now }, lc)
  else (s, ⟨0, 0, 0, 0⟩)

/-- `stop()`: clear the playing flag, release the oscillators, gain
stages, script processor, analyser, master gain and audio context.  The
amplitude, edge-memory and frequency arrays and the waveform buffer are
left as they are. -/
def stop (s : EngineState) : EngineState :=
  { s with isPlaying := false, gains := [], oscFreqValues := [],
           hasProcessor := false, hasContext := false,
           hasAnalyser := false, hasGainNode := false }

/-- `initializeFrequencies` loop body:
`exp(log(minFreq) + (i / (count - 1)) * (log(maxFreq) - log(minFreq)))`.
When `count = 1` the only iteration computes `0 / 0 = NaN`, which
propagates through `exp`. -/
noncomputable def freqAt (count : ℕ) (minF maxF : ℝ) (i : ℕ) : Option ℝ :=
  jsExp (jsAdd (some (Real.log minF))
    (jsMul (jsDiv (some (i : ℝ)) (some ((count : ℝ) - 1)))
      (some (Real.log maxF - Real.log minF))))

/-- The frequency list produced by `initializeFrequencies`. -/
noncomputable def initializeFrequencies (count : ℕ) (minF maxF : ℝ) : List (Option ℝ) :=
  (List.range count).map (freqAt count minF maxF)

/-- The seven synthesis modes. -/
inductive Mode where
  | additive
  | spectral
  | scanline
  | scanlineColor
  | rgbAdditive
  | hsv
  | pulse
deriving DecidableEq

/-- The `smoothing` constant of each mode's source.  (Pulse mode has no
EMA; 0.85 is its release decay factor and is not used by the EMA
theorems.) -/
noncomputable def smoothA : Mode → ℝ
  | .additive => 0.8
  | .spectral => 0.8
  | .scanline => 0.7
  | .scanlineColor => 0.8
  | .rgbAdditive => 0.8
  | .hsv => 0.8
  | .pulse => 0.85

/-- The per-oscillator EMA target each non-pulse mode feeds into the
smoother on a given call (`none` when the mode computes no target for
that call: a `NaN` statistic, or scanline-color's skipped block). -/
noncomputable def modeTarget (m : Mode) (s : EngineState) (f : Frame) (p : Params)
    (now : ℝ) (i : ℕ) : Option ℝ :=
  match m with
  | .additive => additiveTarget f p.oscillatorCount i
  | .spectral => spectralTarget f p.oscillatorCount i
  | .rgbAdditive => rgbTarget f p.oscillatorCount i
  | .hsv => hsvTarget f p.oscillatorCount i
  | .scanline =>
      let pos := advanceScanPos s.scanPosition s.lastFrameTime now p.speed
      let lc := scanlineEndpoints (f.width : ℝ) (f.height : ℝ) p.angle pos
      some (scanlineTarget (scanlineSamples f lc) p.oscillatorCount i)
  | .scanlineColor =>
      let pos := advanceScanPos s.scanPosition s.lastFrameTime now p.speed
      let lc := scanlineEndpoints (f.width : ℝ) (f.height : ℝ) p.angle pos
      if 0 < scCount f lc then some (scTargetAmp f lc p.oscillatorCount i) else none
  | .pulse => none

/-- One synthesis call of mode `m` (the state part). -/
noncomputable def synthStep (m : Mode) (s : EngineState) (f : Frame) (p : Params)
    (now : ℝ) : EngineState :=
  match m with
  | .additive => synthesizeAdditive s f p
  | .spectral => synthesizeSpectral s f p
  | .scanline => (synthesizeScanline s f p now).1
  | .scanlineColor => (synthesizeScanlineColor s f p now).1
  | .rgbAdditive => synthesizeRGBAdditive s f p
  | .hsv => synthesizeHSV s f p
  | .pulse => synthesizePulse s f p

/-- A finite sequence of synthesis calls, each with its own mode, frame
and wall-clock time. -/
noncomputable def runSteps (calls : List (Mode × Frame × ℝ)) (p : Params)
    (s : EngineState) : EngineState :=
  calls.foldl (fun st c => synthStep c.1 st c.2.1 p c.2.2) s

/-- Invariant asserted by the spec's amplitude-bounds property: every
smoothed amplitude is a finite number in `[0, 0.7]`. -/
def ampInvariant (s : EngineState) : Prop :=
  ∀ a ∈ s.amplitudes, ∃ x, a = some x ∧ 0 ≤ x ∧ x ≤ 0.7

/-- Frame conditions under which every region of every mode is
non-degenerate: channel values in `[0, 255]`, at least one column, and
at least one frame row per oscillator band. -/
def frameWF (p : Params) (f : Frame) : Prop :=
  f.wfData ∧ 1 ≤ f.width ∧ p.oscillatorCount ≤ f.height

/-- Modelled from the spec (claim C4 refinement side): the scanline
target as the spec words it — "luminance samples averaged into
`oscillatorCount` contiguous buckets along the 256-sample array; target
= bucketMean·0.5", the i-th bucket spanning sample indices
`[floor(i/count·256), floor((i+1)/count·256))`. -/
noncomputable def specBucketMeanTarget (samples : List ℝ) (count i : ℕ) : ℝ :=
  (∑ j ∈ Finset.Ico (scanSampleIdx count i) (scanSampleIdx count (i + 1)),
    samples.getD j 0) /
    ((scanSampleIdx count (i + 1) - scanSampleIdx count i : ℕ) : ℝ) * 0.5

/-- Modelled from the spec (claim C9 refinement side): the spec's
claimed scanline result of a synthesis call made after `stop()` —
"null/absent scanline coordinates". -/
def specStopCoords : Option ScanCoords := none

/-- Concrete 1×1 all-white frame. -/
def whiteFrame1 : Frame := ⟨1, 1, fun _ => 255⟩

/-- Concrete 1×1 all-black frame. -/
def blackFrame1 : Frame := ⟨1, 1, fun _ => 0⟩

/-- Concrete degenerate 0×0 frame (an empty pixel buffer). -/
def emptyFrame : Frame := ⟨0, 0, fun _ => 0⟩

/-- Concrete parameters with a single oscillator. -/
def params1 : Params := ⟨1, 0, 1, 80, 4000⟩

/-- Concrete parameters with two oscillators. -/
def params2 : Params := ⟨2, 0, 1, 80, 4000⟩

/-- Concrete playing engine state with one zeroed oscillator. -/
def state1 : EngineState :=
  ⟨true, [some 0], [some 0], [some 0], [some 0], [some 220], 0, 0, [],
   true, true, true, true⟩

/-- Concrete playing engine state with two zeroed oscillators. -/
def state2 : EngineState :=
  ⟨true, [some 0, some 0], [some 0, some 0], [some 0, some 0],
   [some 0, some 0], [some 220, some 440], 0, 0, [], true, true, true, true⟩

/-- The closed form of the allocated frequency `i` for `count ≥ 2`:
`exp(log(minFreq) + (i/(count-1)) * (log(maxFreq) - log(minFreq)))`. -/
noncomputable def freqFormula (count : ℕ) (minF maxF : ℝ) (i : ℕ) : ℝ :=
  Real.exp (Real.log minF + (i : ℝ) / ((count : ℝ) - 1) *
    (Real.log maxF - Real.log minF))

/-! ## Basic lemmas about the embedding -/

theorem emaJs_some (alpha a t : ℝ) :
    emaJs alpha (some a) (some t) = some (a * alpha + t * (1 - alpha)) := rfl

theorem emaJs_none_left (alpha : ℝ) (t : Option ℝ) :
    emaJs alpha none t = none := by
  cases t <;> rfl

theorem emaJs_none_right (alpha : ℝ) (a : Option ℝ) :
    emaJs alpha a none = none := by
  cases a <;> rfl

theorem grayAt_bounds {f : Frame} (hf : f.wfData) (x y : ℕ) :
    0 ≤ grayAt f x y ∧ grayAt f x y ≤ 255 := by
  obtain ⟨h0a, h1a⟩ := hf (pixIdx f.width x y)
  obtain ⟨h0b, h1b⟩ := hf (pixIdx f.width x y + 1)
  obtain ⟨h0c, h1c⟩ := hf (pixIdx f.width x y + 2)
  constructor <;> · unfold grayAt; nlinarith

theorem loopMap_length (g : ℕ → α → α) (k : ℕ) (l : List α) :
    (loopMap g k l).length = l.length := by
  induction l generalizing k with
  | nil => rfl
  | cons a t ih => simp [loopMap, ih]

theorem loopMap_getElem? (g : ℕ → α → α) (k i : ℕ) (l : List α) :
    (loopMap g k l)[i]? = (l[i]?).map (g (k + i)) := by
  induction l generalizing k i with
  | nil => simp [loopMap]
  | cons a t ih =>
    cases i with
    | zero => simp [loopMap]
    | succ j =>
      simp only [loopMap, List.getElem?_cons_succ, ih]
      ring_nf

theorem loopMap_mem {g : ℕ → α → α} {l : List α} {k : ℕ} {a : α}
    (h : a ∈ loopMap g k l) : ∃ i b, l[i]? = some b ∧ a = g (k + i) b := by
  induction l generalizing k with
  | nil => simp [loopMap] at h
  | cons c t ih =>
    simp only [loopMap] at h
    rcases List.mem_cons.mp h with h1 | h1
    · exact ⟨0, c, by simp, by simpa using h1⟩
    · obtain ⟨i, b, hb, hab⟩ := ih h1
      refine ⟨i + 1, b, by simpa using hb, ?_⟩
      rw [hab]
      congr 1
      omega

theorem additive_amp (s : EngineState) (f : Frame) (p : Params) (i : ℕ)
    (hp : s.isPlaying = true) :
    (synthesizeAdditive s f p).amplitudes[i]? =
      (s.amplitudes[i]?).map (fun a =>
        if i < p.oscillatorCount
        then emaJs 0.8 a (additiveTarget f p.oscillatorCount i) else a) := by
  simp [synthesizeAdditive, hp, loopMap_getElem?]

theorem spectral_amp (s : EngineState) (f : Frame) (p : Params) (i : ℕ)
    (hp : s.isPlaying = true) :
    (synthesizeSpectral s f p).amplitudes[i]? =
      (s.amplitudes[i]?).map (fun a =>
        if i < p.oscillatorCount
        then emaJs 0.8 a (spectralTarget f p.oscillatorCount i) else a) := by
  simp [synthesizeSpectral, hp, loopMap_getElem?]

theorem rgb_amp (s : EngineState) (f : Frame) (p : Params) (i : ℕ)
    (hp : s.isPlaying = true) :
    (synthesizeRGBAdditive s f p).amplitudes[i]? =
      (s.amplitudes[i]?).map (fun a =>
        if i < p.oscillatorCount
        then emaJs 0.8 a (rgbTarget f p.oscillatorCount i) else a) := by
  simp [synthesizeRGBAdditive, hp, loopMap_getElem?]

theorem hsv_amp (s : EngineState) (f : Frame) (p : Params) (i : ℕ)
    (hp : s.isPlaying = true) :
    (synthesizeHSV s f p).amplitudes[i]? =
      (s.amplitudes[i]?).map (fun a =>
        if i < p.oscillatorCount
        then emaJs 0.8 a (hsvTarget f p.oscillatorCount i) else a) := by
  simp [synthesizeHSV, hp, loopMap_getElem?]

theorem scanline_amp (s : EngineState) (f : Frame) (p : Params) (now : ℝ) (i : ℕ)
    (hp : s.isPlaying = true) :
    (synthesizeScanline s f p now).1.amplitudes[i]? =
      (s.amplitudes[i]?).map (fun a =>
        if i < p.oscillatorCount
        then emaJs 0.7 a (some (scanlineTarget
          (scanlineSamples f (scanlineEndpoints (f.width : ℝ) (f.height : ℝ) p.angle
            (advanceScanPos s.scanPosition s.lastFrameTime now p.speed)))
          p.oscillatorCount i))
        else a) := by
  simp [synthesizeScanline, hp, loopMap_getElem?]

theorem scanlineColor_amp (s : EngineState) (f : Frame) (p : Params) (now : ℝ) (i : ℕ)
    (hp : s.isPlaying = true)
    (hc : 0 < scCount f (scanlineEndpoints (f.width : ℝ) (f.height : ℝ) p.angle
      (advanceScanPos s.scanPosition s.lastFrameTime now p.speed))) :
    (synthesizeScanlineColor s f p now).1.amplitudes[i]? =
      (s.amplitudes[i]?).map (fun a =>
        if i < p.oscillatorCount
        then emaJs 0.8 a (some (scTargetAmp f
          (scanlineEndpoints (f.width : ℝ) (f.height : ℝ) p.angle
            (advanceScanPos s.scanPosition s.lastFrameTime now p.speed))
          p.oscillatorCount i))
        else a) := by
  simp [synthesizeScanlineColor, hp, hc, loopMap_getElem?]

theorem scanlineColor_skip_state (s : EngineState) (f : Frame) (p : Params) (now : ℝ)
    (hp : s.isPlaying = true)
    (hc : scCount f (scanlineEndpoints (f.width : ℝ) (f.height : ℝ) p.angle
      (advanceScanPos s.scanPosition s.lastFrameTime now p.speed)) = 0) :
    (synthesizeScanlineColor s f p now).1 =
      { s with scanPosition := advanceScanPos s.scanPosition s.lastFrameTime now p.speed,
               lastFrameTime := now } := by
  simp [synthesizeScanlineColor, hp, hc]

theorem pulse_amp (s : EngineState) (f : Frame) (p : Params) (i : ℕ)
    (hp : s.isPlaying = true) :
    (synthesizePulse s f p).amplitudes[i]? =
      (s.amplitudes[i]?).map (fun a =>
        if i < p.oscillatorCount then
          if max 0 (pulseEdgeMag f p.oscillatorCount i -
              (s.prevEdgeMagnitudes.getD i none).getD 0) > 0.02
          then some (min 0.7 (max 0 (pulseEdgeMag f p.oscillatorCount i -
            (s.prevEdgeMagnitudes.getD i none).getD 0) * 5))
          else jsMul a (some 0.85)
        else a) := by
  simp [synthesizePulse, hp, loopMap_getElem?]

theorem pulse_prev (s : EngineState) (f : Frame) (p : Params) (i : ℕ)
    (hp : s.isPlaying = true) :
    (synthesizePulse s f p).prevEdgeMagnitudes[i]? =
      (s.prevEdgeMagnitudes[i]?).map (fun q =>
        if i < p.oscillatorCount then some (pulseEdgeMag f p.oscillatorCount i) else q) := by
  simp [synthesizePulse, hp, loopMap_getElem?]

/-- C6: in pulse mode, on every call and for every oscillator, with
`delta = max(0, edgeMagnitude - previousEdgeMagnitude)`: if
`delta > 0.02` the amplitude is set (not blended) to
`min(0.7, delta * 5)`; otherwise the amplitude is multiplied by 0.85;
and `previousEdgeMagnitude` is set to the current edge magnitude on both
branches. -/
theorem c6_pulse_attack_release (s : EngineState) (f : Frame) (p : Params)
    (i : ℕ) (a : Option ℝ) (hp : s.isPlaying = true)
    (hi : i < p.oscillatorCount) (ha : s.amplitudes[i]? = some a)
    (hq : i < s.prevEdgeMagnitudes.length) :
    ((synthesizePulse s f p).amplitudes[i]? =
      some (if max 0 (pulseEdgeMag f p.oscillatorCount i -
            (s.prevEdgeMagnitudes.getD i none).getD 0) > 0.02
        then some (min 0.7 (max 0 (pulseEdgeMag f p.oscillatorCount i -
          (s.prevEdgeMagnitudes.getD i none).getD 0) * 5))
        else jsMul a (some 0.85))) ∧
    (synthesizePulse s f p).prevEdgeMagnitudes[i]? =
      some (some (pulseEdgeMag f p.oscillatorCount i)) := by
  constructor
  · rw [pulse_amp s f p i hp, ha]
    simp [hi]
  · rw [pulse_prev s f p i hp, List.getElem?_eq_getElem hq]
    simp [hi]

/-- Witness for C6 at a concrete call: one oscillator, 1×1 black frame,
zeroed state. -/
theorem c6_pulse_attack_release_witness :
    ((synthesizePulse state1 blackFrame1 params1).amplitudes[0]? =
      some (if max 0 (pulseEdgeMag blackFrame1 params1.oscillatorCount 0 -
            (state1.prevEdgeMagnitudes.getD 0 none).getD 0) > 0.02
        then some (min 0.7 (max 0 (pulseEdgeMag blackFrame1 params1.oscillatorCount 0 -
          (state1.prevEdgeMagnitudes.getD 0 none).getD 0) * 5))
        else jsMul (some 0) (some 0.85))) ∧
    (synthesizePulse state1 blackFrame1 params1).prevEdgeMagnitudes[0]? =
      some (some (pulseEdgeMag blackFrame1 params1.oscillatorCount 0)) :=
  c6_pulse_attack_release state1 blackFrame1 params1 0 (some 0) rfl
    (by decide) rfl (by decide)

theorem additiveTarget_white1 : additiveTarget whiteFrame1 1 0 = some 0.7 := by
  have h1 : bandLowY 1 whiteFrame1.height (bandIdx 1 0) = 0 := by
    norm_num [bandLowY, bandIdx, whiteFrame1]
  have h2 : bandLowY 1 whiteFrame1.height (bandIdx 1 0 + 1) = 1 := by
    norm_num [bandLowY, bandIdx, whiteFrame1]
  have hsum : additiveBandSum whiteFrame1 1 0 = 255 := by
    unfold additiveBandSum
    rw [h1, h2]
    rw [show Finset.Ico 0 1 = Finset.range 1 from rfl]
    simp [grayAt, whiteFrame1, pixIdx]
    norm_num
  have hcnt : additiveBandCnt whiteFrame1 1 0 = 1 := by
    unfold additiveBandCnt
    rw [h1, h2]
    simp [whiteFrame1]
  unfold additiveTarget
  rw [hsum, hcnt]
  simp [jsDiv, jsMul]

/-- C1 (amended): for every synthesis call in additive, spectral,
rgb-additive, hsv, scanline-color and scanline modes, each oscillator's
smoothed amplitude is updated by the exponential moving average
`smoothed' = smoothed * α + target * (1 - α)`, with retention constant
α = 0.80 for additive/spectral/rgb-additive/hsv/scanline-color and
α = 0.70 for scanline (the spec claims 0.85 for the first five; the
source uses `smoothing = 0.8`). -/
theorem c1_ema_smoothing_constants :
    (smoothA Mode.additive = 0.8 ∧ smoothA Mode.spectral = 0.8 ∧
     smoothA Mode.rgbAdditive = 0.8 ∧ smoothA Mode.hsv = 0.8 ∧
     smoothA Mode.scanlineColor = 0.8 ∧ smoothA Mode.scanline = 0.7) ∧
    ∀ (m : Mode) (s : EngineState) (f : Frame) (p : Params) (now : ℝ)
      (i : ℕ) (a t : ℝ),
      m ≠ Mode.pulse → s.isPlaying = true → i < p.oscillatorCount →
      s.amplitudes[i]? = some (some a) →
      modeTarget m s f p now i = some t →
      (synthStep m s f p now).amplitudes[i]? =
        some (some (a * smoothA m + t * (1 - smoothA m))) := by
  refine ⟨⟨rfl, rfl, rfl, rfl, rfl, rfl⟩, ?_⟩
  intro m s f p now i a t hm hp hi ha ht
  cases m with
  | additive =>
      simp only [modeTarget] at ht
      rw [synthStep, additive_amp s f p i hp, ha]
      simp [hi, ht, emaJs_some, smoothA]
  | spectral =>
      simp only [modeTarget] at ht
      rw [synthStep, spectral_amp s f p i hp, ha]
      simp [hi, ht, emaJs_some, smoothA]
  | rgbAdditive =>
      simp only [modeTarget] at ht
      rw [synthStep, rgb_amp s f p i hp, ha]
      simp [hi, ht, emaJs_some, smoothA]
  | hsv =>
      simp only [modeTarget] at ht
      rw [synthStep, hsv_amp s f p i hp, ha]
      simp [hi, ht, emaJs_some, smoothA]
  | scanline =>
      simp only [modeTarget, Option.some.injEq] at ht
      rw [synthStep, scanline_amp s f p now i hp, ha]
      simp [hi, ht, emaJs_some, smoothA]
  | scanlineColor =>
      simp only [modeTarget] at ht
      by_cases hc : 0 < scCount f (scanlineEndpoints (f.width : ℝ) (f.height : ℝ)
        p.angle (advanceScanPos s.scanPosition s.lastFrameTime now p.speed))
      · simp only [hc, if_true] at ht
        rw [synthStep, scanlineColor_amp s f p now i hp hc, ha]
        simp only [Option.some.injEq] at ht
        simp [hi, ht, emaJs_some, smoothA]
      · simp [hc] at ht
  | pulse => exact absurd rfl hm

/-- Counterexample for C1 as stated: in additive mode on a 1×1 white
frame from a zeroed state the new amplitude is
`0 * 0.8 + 0.7 * (1 - 0.8) = 0.14`, not the
`0 * 0.85 + 0.7 * (1 - 0.85) = 0.105` the claimed α = 0.85 would give. -/
theorem c1_smoothing_claim_counterexample :
    (synthesizeAdditive state1 whiteFrame1 params1).amplitudes[0]? =
      some (some (0.14 : ℝ)) ∧ (0.14 : ℝ) ≠ 0 * 0.85 + 0.7 * (1 - 0.85) := by
  constructor
  · rw [additive_amp state1 whiteFrame1 params1 0 rfl]
    rw [show state1.amplitudes[0]? = some (some 0) from rfl]
    have hc : (0 : ℕ) < params1.oscillatorCount := by decide
    have h1 : params1.oscillatorCount = 1 := rfl
    norm_num [h1, additiveTarget_white1, emaJs_some]
  · norm_num

/-- Witness for C1 at a concrete call: additive mode, 1×1 white frame,
one zeroed oscillator, target 0.7. -/
theorem c1_ema_smoothing_constants_witness :
    (synthStep Mode.additive state1 whiteFrame1 params1 0).amplitudes[0]? =
      some (some (0 * smoothA Mode.additive + 0.7 * (1 - smoothA Mode.additive))) :=
  c1_ema_smoothing_constants.2 Mode.additive state1 whiteFrame1 params1 0 0 0 0.7
    (by decide) rfl (by decide) rfl additiveTarget_white1

/-- C7: for every angle in `[0, 360)`, every positive frame size `W×H`
and every scan position in `[0, 1)`, both endpoints of the computed
sampling line lie at Euclidean distance at least `sqrt(W² + H²)` from
the frame center `(W/2, H/2)`. -/
theorem c7_scanline_coverage (w h angle pos : ℝ)
    (hw : 0 < w) (hh : 0 < h) (ha0 : 0 ≤ angle) (ha1 : angle < 360)
    (hp0 : 0 ≤ pos) (hp1 : pos < 1) :
    Real.sqrt (w * w + h * h) ≤
      Real.sqrt (((scanlineEndpoints w h angle pos).x1 - w / 2) ^ 2 +
        ((scanlineEndpoints w h angle pos).y1 - h / 2) ^ 2) ∧
    Real.sqrt (w * w + h * h) ≤
      Real.sqrt (((scanlineEndpoints w h angle pos).x2 - w / 2) ^ 2 +
        ((scanlineEndpoints w h angle pos).y2 - h / 2) ^ 2) := by
  have hnn : (0 : ℝ) ≤ w * w + h * h := by positivity
  have hD2 : Real.sqrt (w * w + h * h) ^ 2 = w * w + h * h := Real.sq_sqrt hnn
  have hsc : Real.sin (angle * Real.pi / 180) ^ 2 +
      Real.cos (angle * Real.pi / 180) ^ 2 = 1 :=
    Real.sin_sq_add_cos_sq _
  constructor <;>
  · apply Real.sqrt_le_sqrt
    simp only [scanlineEndpoints]
    nlinarith [hD2, hsc,
      sq_nonneg ((pos - 0.5) * Real.sqrt (w * w + h * h)),
      sq_nonneg (Real.sin (angle * Real.pi / 180)),
      sq_nonneg (Real.cos (angle * Real.pi / 180))]

/-- Witness for C7 at the concrete instance `W = 4`, `H = 3`,
`angle = 0`, `scanPosition = 0`. -/
theorem c7_scanline_coverage_witness :
    Real.sqrt ((4 : ℝ) * 4 + 3 * 3) ≤
      Real.sqrt (((scanlineEndpoints 4 3 0 0).x1 - 4 / 2) ^ 2 +
        ((scanlineEndpoints 4 3 0 0).y1 - 3 / 2) ^ 2) ∧
    Real.sqrt ((4 : ℝ) * 4 + 3 * 3) ≤
      Real.sqrt (((scanlineEndpoints 4 3 0 0).x2 - 4 / 2) ^ 2 +
        ((scanlineEndpoints 4 3 0 0).y2 - 3 / 2) ^ 2) :=
  c7_scanline_coverage 4 3 0 0 (by norm_num) (by norm_num) le_rfl
    (by norm_num) le_rfl (by norm_num)

/-- C2: for every `count ≥ 2` and `0 < minFreq < maxFreq`, the frequency
allocator produces a sequence of length `count` of finite frequencies
given by the log-spaced formula; the sequence is strictly increasing,
starts at `minFreq`, ends at `maxFreq`, and consecutive log differences
are the constant `(ln maxFreq - ln minFreq) / (count - 1)`. -/
theorem c2_log_spaced_frequencies (count : ℕ) (minF maxF : ℝ)
    (hc : 2 ≤ count) (h0 : 0 < minF) (h1 : minF < maxF) :
    (initializeFrequencies count minF maxF).length = count ∧
    (∀ i, i < count → (initializeFrequencies count minF maxF)[i]? =
      some (some (freqFormula count minF maxF i))) ∧
    freqFormula count minF maxF 0 = minF ∧
    freqFormula count minF maxF (count - 1) = maxF ∧
    (∀ i, i + 1 < count →
      freqFormula count minF maxF i < freqFormula count minF maxF (i + 1)) ∧
    (∀ i, i + 1 < count →
      Real.log (freqFormula count minF maxF (i + 1)) -
        Real.log (freqFormula count minF maxF i) =
      (Real.log maxF - Real.log minF) / ((count : ℝ) - 1)) := by
  have h2 : (0 : ℝ) < (count : ℝ) - 1 := by
    have : (2 : ℝ) ≤ (count : ℝ) := by exact_mod_cast hc
    linarith
  have hne : ((count : ℝ) - 1) ≠ 0 := ne_of_gt h2
  have hd : 0 < Real.log maxF - Real.log minF := by
    have := Real.log_lt_log h0 h1
    linarith
  refine ⟨by simp [initializeFrequencies], ?_, ?_, ?_, ?_, ?_⟩
  · intro i hi
    simp [initializeFrequencies, freqAt, jsDiv, jsMul, jsAdd, jsExp, hne,
      freqFormula, hi]
  · simp [freqFormula, Real.exp_log h0]
  · have hcast : ((count - 1 : ℕ) : ℝ) = (count : ℝ) - 1 := by
      have : 1 ≤ count := le_trans (by norm_num) hc
      push_cast [this]
      ring
    rw [freqFormula, hcast, div_self hne]
    rw [show Real.log minF + 1 * (Real.log maxF - Real.log minF) =
      Real.log maxF by ring]
    exact Real.exp_log (h0.trans h1)
  · intro i _
    apply Real.exp_lt_exp.mpr
    push_cast
    gcongr
    linarith
  · intro i _
    simp only [freqFormula, Real.log_exp]
    push_cast
    field_simp
    ring

/-- Witness for C2 at the concrete instance
`count = 2, minFreq = 2, maxFreq = 4`. -/
theorem c2_log_spaced_frequencies_witness :
    (initializeFrequencies 2 2 4).length = 2 ∧
    (∀ i, i < 2 → (initializeFrequencies 2 2 4)[i]? =
      some (some (freqFormula 2 2 4 i))) ∧
    freqFormula 2 2 4 0 = 2 ∧
    freqFormula 2 2 4 (2 - 1) = 4 ∧
    (∀ i, i + 1 < 2 → freqFormula 2 2 4 i < freqFormula 2 2 4 (i + 1)) ∧
    (∀ i, i + 1 < 2 →
      Real.log (freqFormula 2 2 4 (i + 1)) - Real.log (freqFormula 2 2 4 i) =
      (Real.log 4 - Real.log 2) / ((2 : ℕ) - 1 : ℝ)) :=
  c2_log_spaced_frequencies 2 2 4 (by norm_num) (by norm_num) (by norm_num)

/-- C3 (code bug): with `count = 1` the loop computes `t = 0/0 = NaN`,
so `initializeFrequencies` yields a single non-finite frequency instead
of the `{minFreq}` the spec promises (shown here at
`minFreq = 220, maxFreq = 880`). -/
theorem c3_count_one_nan :
    initializeFrequencies 1 220 880 = [none] ∧
    ([none] : List (Option ℝ)) ≠ [some 220] := by
  constructor
  · rw [initializeFrequencies, show List.range 1 = [0] from rfl]
    norm_num [freqAt, jsDiv, jsMul, jsAdd, jsExp]
  · simp

/-- Counterexample for C4 as stated: on a 256-sample array whose first
sample is 1 and the rest 0, with 128 oscillators, the code's target for
oscillator 0 is `samples[0] * 0.5 = 0.5`, while the mean of the first
bucket (samples 0 and 1) times 0.5 is `0.25`. -/
theorem c4_bucket_mean_counterexample :
    ((1 : ℝ) :: List.replicate 255 0).length = 256 ∧
    scanlineTarget ((1 : ℝ) :: List.replicate 255 0) 128 0 = 0.5 ∧
    specBucketMeanTarget ((1 : ℝ) :: List.replicate 255 0) 128 0 = 0.25 ∧
    (0.5 : ℝ) ≠ 0.25 := by
  have h0 : scanSampleIdx 128 0 = 0 := by norm_num [scanSampleIdx]
  have h1 : scanSampleIdx 128 (0 + 1) = 2 := by
    norm_num [scanSampleIdx]
    decide
  refine ⟨by rw [List.length_cons, List.length_replicate], ?_, ?_, by norm_num⟩
  · rw [scanlineTarget, h0]
    norm_num
  · rw [specBucketMeanTarget, h0, h1]
    rw [show Finset.Ico 0 2 = Finset.range 2 from by simp [Nat.Ico_zero_eq_range]]
    rw [Finset.sum_range_succ, Finset.sum_range_one]
    norm_num

/-- C4 (amended): in scanline mode, the target amplitude for oscillator
`i` is `0.5` times the single luminance sample at index
`floor(i / oscillatorCount * 256)` of the 256-sample array (not a bucket
mean), and the amplitude is updated by the EMA with α = 0.7 on that
target. -/
theorem c4_single_sample_target (s : EngineState) (f : Frame) (p : Params)
    (now : ℝ) (i : ℕ) (a : ℝ) (hp : s.isPlaying = true)
    (hi : i < p.oscillatorCount) (ha : s.amplitudes[i]? = some (some a)) :
    (synthesizeScanline s f p now).1.amplitudes[i]? =
      some (some (a * 0.7 +
        ((scanlineSamples f (scanlineEndpoints (f.width : ℝ) (f.height : ℝ)
            p.angle (advanceScanPos s.scanPosition s.lastFrameTime now p.speed))).getD
          (scanSampleIdx p.oscillatorCount i) 0 * 0.5) * (1 - 0.7))) := by
  rw [scanline_amp s f p now i hp, ha]
  simp [hi, emaJs_some, scanlineTarget]

/-- Witness for C4's amended theorem at a concrete call: scanline mode,
empty frame, one zeroed oscillator. -/
theorem c4_single_sample_target_witness :
    (synthesizeScanline state1 emptyFrame params1 0).1.amplitudes[0]? =
      some (some (0 * 0.7 +
        ((scanlineSamples emptyFrame (scanlineEndpoints (emptyFrame.width : ℝ)
            (emptyFrame.height : ℝ) params1.angle
            (advanceScanPos state1.scanPosition state1.lastFrameTime 0
              params1.speed))).getD
          (scanSampleIdx params1.oscillatorCount 0) 0 * 0.5) * (1 - 0.7))) :=
  c4_single_sample_target state1 emptyFrame params1 0 0 0 rfl (by decide) rfl

/-- Counterexample for C8 as stated: in additive mode with 2 oscillators
on a 1×1 frame, oscillator 1's band is zero-area and its target is the
non-finite `0/0` (`none`), not the zero statistic the claim promises. -/
theorem c8_degenerate_band_counterexample :
    additiveBandCnt blackFrame1 2 1 = 0 ∧
    additiveTarget blackFrame1 2 1 = none ∧
    (none : Option ℝ) ≠ some 0 := by
  have hcnt : additiveBandCnt blackFrame1 2 1 = 0 := by
    unfold additiveBandCnt
    norm_num [bandLowY, bandIdx, blackFrame1]
  refine ⟨hcnt, ?_, by simp⟩
  unfold additiveTarget
  rw [hcnt]
  simp [jsDiv, jsMul]

/-- C8 (amended): pulse mode guards a zero-area band and contributes a
zero statistic for it; additive mode instead produces a non-finite
(`NaN`) target for a zero-area band; every region's update is computed
independently, so the call completes normally for all other regions. -/
theorem c8_degenerate_regions :
    (∀ (f : Frame) (count i : ℕ), pulseCnt f count i = 0 →
      pulseEdgeMag f count i = 0) ∧
    (∀ (f : Frame) (count i : ℕ), additiveBandCnt f count i = 0 →
      additiveTarget f count i = none) ∧
    (∀ (s : EngineState) (f : Frame) (p : Params) (i : ℕ) (a : Option ℝ),
      s.isPlaying = true → i < p.oscillatorCount →
      s.amplitudes[i]? = some a →
      (synthesizeAdditive s f p).amplitudes[i]? =
        some (emaJs 0.8 a (additiveTarget f p.oscillatorCount i))) := by
  refine ⟨?_, ?_, ?_⟩
  · intro f count i h
    simp [pulseEdgeMag, h]
  · intro f count i h
    simp [additiveTarget, h, jsDiv, jsMul]
  · intro s f p i a hp hi ha
    rw [additive_amp s f p i hp, ha]
    simp [hi]

/-- Witness for C8's amended theorem: a concrete zero-area pulse band, a
concrete zero-area additive band, and a concrete independent region
update. -/
theorem c8_degenerate_regions_witness :
    pulseEdgeMag blackFrame1 2 1 = 0 ∧
    additiveTarget blackFrame1 2 1 = none ∧
    (synthesizeAdditive state2 blackFrame1 params2).amplitudes[0]? =
      some (emaJs 0.8 (some 0) (additiveTarget blackFrame1 params2.oscillatorCount 0)) :=
  ⟨c8_degenerate_regions.1 blackFrame1 2 1
      (by norm_num [pulseCnt, bandLowY, bandIdx, blackFrame1, Nat.card_Ico]),
   c8_degenerate_regions.2.1 blackFrame1 2 1
      (by unfold additiveBandCnt; norm_num [bandLowY, bandIdx, blackFrame1]),
   c8_degenerate_regions.2.2 state2 blackFrame1 params2 0 (some 0) rfl
      (by decide) rfl⟩

/-- C10: in scanline-color mode, when none of the 256 line samples falls
inside the frame bounds, the call leaves every smoothed amplitude and
every oscillator gain unchanged (the whole amplitude-update block is
skipped) while still returning the computed line endpoints. -/
theorem c10_scanline_color_skip (s : EngineState) (f : Frame) (p : Params)
    (now : ℝ) (hp : s.isPlaying = true)
    (hc : scCount f (scanlineEndpoints (f.width : ℝ) (f.height : ℝ) p.angle
      (advanceScanPos s.scanPosition s.lastFrameTime now p.speed)) = 0) :
    (synthesizeScanlineColor s f p now).1.amplitudes = s.amplitudes ∧
    (synthesizeScanlineColor s f p now).1.gains = s.gains ∧
    (synthesizeScanlineColor s f p now).2 =
      scanlineEndpoints (f.width : ℝ) (f.height : ℝ) p.angle
        (advanceScanPos s.scanPosition s.lastFrameTime now p.speed) := by
  have h1 := scanlineColor_skip_state s f p now hp hc
  refine ⟨by rw [h1], by rw [h1], ?_⟩
  simp [synthesizeScanlineColor, hp, hc]

/-- Witness for C10 at a concrete call: an empty 0×0 frame has no
in-frame samples, so the amplitude block is skipped. -/
theorem c10_scanline_color_skip_witness :
    (synthesizeScanlineColor state1 emptyFrame params1 0).1.amplitudes =
      state1.amplitudes ∧
    (synthesizeScanlineColor state1 emptyFrame params1 0).1.gains =
      state1.gains ∧
    (synthesizeScanlineColor state1 emptyFrame params1 0).2 =
      scanlineEndpoints (emptyFrame.width : ℝ) (emptyFrame.height : ℝ)
        params1.angle
        (advanceScanPos state1.scanPosition state1.lastFrameTime 0
          params1.speed) := by
  have hin : ∀ i, ¬ sampleInB emptyFrame
      (scanlineEndpoints (emptyFrame.width : ℝ) (emptyFrame.height : ℝ)
        params1.angle
        (advanceScanPos state1.scanPosition state1.lastFrameTime 0
          params1.speed)) i := by
    intro i hi
    obtain ⟨h1, h2, _, _⟩ := hi
    rw [show ((emptyFrame.width : ℕ) : ℤ) = 0 from rfl] at h2
    omega
  exact c10_scanline_color_skip state1 emptyFrame params1 0 rfl
    (by simp [scCount, Finset.filter_eq_empty_iff, hin])

/-- Counterexample for C9 as stated: a scanline synthesis call made
after `stop()` returns the concrete zero sentinel coordinates
`{x1: 0, y1: 0, x2: 0, y2: 0}`, a present record, not the "null/absent
scanline coordinates" the spec claims. -/
theorem c9_stop_coords_counterexample :
    (synthesizeScanline (stop state1) blackFrame1 params1 0).2 =
      ⟨0, 0, 0, 0⟩ ∧
    some (synthesizeScanline (stop state1) blackFrame1 params1 0).2 ≠
      specStopCoords := by
  constructor
  · simp [synthesizeScanline, stop]
  · simp [specStopCoords]

/-- C9 (amended): `stop()` is idempotent (calling it a second time is a
no-op) and total; every synthesis method called on a stopped engine
returns the state unmodified without raising, the scanline methods
additionally returning the zero sentinel coordinates `{0, 0, 0, 0}`
rather than null/absent ones. -/
theorem c9_stop_lifecycle :
    (∀ s : EngineState, stop (stop s) = stop s) ∧
    (∀ (s : EngineState) (f : Frame) (p : Params) (now : ℝ),
      s.isPlaying = false →
      synthesizeAdditive s f p = s ∧ synthesizeSpectral s f p = s ∧
      synthesizeRGBAdditive s f p = s ∧ synthesizeHSV s f p = s ∧
      synthesizePulse s f p = s ∧
      synthesizeScanline s f p now = (s, ⟨0, 0, 0, 0⟩) ∧
      synthesizeScanlineColor s f p now = (s, ⟨0, 0, 0, 0⟩)) ∧
    (∀ s : EngineState, (stop s).isPlaying = false) := by
  refine ⟨fun s => rfl, ?_, fun s => rfl⟩
  intro s f p now hp
  refine ⟨?_, ?_, ?_, ?_, ?_, ?_, ?_⟩ <;>
    simp [synthesizeAdditive, synthesizeSpectral, synthesizeRGBAdditive,
      synthesizeHSV, synthesizePulse, synthesizeScanline,
      synthesizeScanlineColor, hp]

/-- Witness for C9's amended theorem at a concrete stopped state. -/
theorem c9_stop_lifecycle_witness :
    stop (stop state1) = stop state1 ∧
    synthesizeAdditive (stop state1) blackFrame1 params1 = stop state1 ∧
    synthesizeScanline (stop state1) blackFrame1 params1 0 =
      (stop state1, ⟨0, 0, 0, 0⟩) :=
  ⟨c9_stop_lifecycle.1 state1,
   (c9_stop_lifecycle.2.1 (stop state1) blackFrame1 params1 0 rfl).1,
   (c9_stop_lifecycle.2.1 (stop state1) blackFrame1 params1 0 rfl).2.2.2.2.2.1⟩

theorem mem_of_getElemOpt {α : Type _} {l : List α} {i : ℕ} {a : α}
    (h : l[i]? = some a) : a ∈ l := by
  obtain ⟨hl, rfl⟩ := List.getElem?_eq_some.mp h
  exact List.getElem_mem hl

theorem ema_ok (alpha a t : ℝ) (h0 : 0 ≤ alpha) (h1 : alpha ≤ 1)
    (ha : 0 ≤ a ∧ a ≤ 0.7) (ht : 0 ≤ t ∧ t ≤ 0.7) :
    0 ≤ a * alpha + t * (1 - alpha) ∧ a * alpha + t * (1 - alpha) ≤ 0.7 := by
  constructor <;> nlinarith [ha.1, ha.2, ht.1, ht.2]

theorem meanTarget_ok (sum : ℝ) (cnt : ℕ) (hc : 0 < cnt)
    (h0 : 0 ≤ sum) (h1 : sum ≤ 255 * cnt) :
    ∃ t, jsMul (jsDiv (jsDiv (some sum) (some (cnt : ℝ))) (some 255))
        (some 0.7) = some t ∧ 0 ≤ t ∧ t ≤ 0.7 := by
  have hcr : (0 : ℝ) < (cnt : ℝ) := by exact_mod_cast hc
  have hne : ((cnt : ℝ)) ≠ 0 := ne_of_gt hcr
  refine ⟨sum / cnt / 255 * 0.7, ?_, ?_, ?_⟩
  · norm_num [jsDiv, jsMul, hne]
  · positivity
  · have h2 : sum / cnt ≤ 255 := by rw [div_le_iff hcr]; linarith
    have h3 : 0 ≤ sum / cnt := by positivity
    nlinarith

theorem bandSum_le (lo hi w : ℕ) (b : ℝ) (hb : 0 ≤ b) (g : ℕ → ℕ → ℝ)
    (hg : ∀ x y, 0 ≤ g x y ∧ g x y ≤ b) :
    0 ≤ (∑ y ∈ Finset.Ico lo hi, ∑ x ∈ Finset.range w, g x y) ∧
    (∑ y ∈ Finset.Ico lo hi, ∑ x ∈ Finset.range w, g x y) ≤
      b * (((hi - lo) * w : ℕ) : ℝ) := by
  constructor
  · apply Finset.sum_nonneg
    intro y _
    apply Finset.sum_nonneg
    intro x _
    exact (hg x y).1
  · calc (∑ y ∈ Finset.Ico lo hi, ∑ x ∈ Finset.range w, g x y)
        ≤ ∑ _y ∈ Finset.Ico lo hi, (w : ℝ) * b := by
          apply Finset.sum_le_sum
          intro y _
          have h := Finset.sum_le_card_nsmul (Finset.range w)
            (fun x => g x y) b (fun x _ => (hg x y).2)
          simpa [Finset.card_range, nsmul_eq_mul] using h
      _ = ((hi - lo : ℕ) : ℝ) * ((w : ℝ) * b) := by
          rw [Finset.sum_const, Nat.card_Ico, nsmul_eq_mul]
      _ = b * (((hi - lo) * w : ℕ) : ℝ) := by push_cast; ring

theorem rowSum_le (w : ℕ) (g : ℕ → ℝ) (hg : ∀ x, 0 ≤ g x ∧ g x ≤ 255) :
    0 ≤ (∑ x ∈ Finset.range w, g x) ∧
    (∑ x ∈ Finset.range w, g x) ≤ 255 * (w : ℝ) := by
  constructor
  · exact Finset.sum_nonneg fun x _ => (hg x).1
  · have h := Finset.sum_le_card_nsmul (Finset.range w) g 255 fun x _ => (hg x).2
    calc (∑ x ∈ Finset.range w, g x) ≤ (w : ℝ) * 255 := by
          simpa [Finset.card_range, nsmul_eq_mul] using h
      _ = 255 * (w : ℝ) := by ring

theorem bandLowY_lt (count h b : ℕ) (hh : count ≤ h) (hc : 0 < count) :
    bandLowY count h b < bandLowY count h (b + 1) := by
  unfold bandLowY
  have hcq : (0 : ℚ) < (count : ℚ) := by exact_mod_cast hc
  have hq : (1 : ℚ) ≤ (h : ℚ) / (count : ℚ) := by
    rw [le_div_iff₀ hcq, one_mul]
    exact_mod_cast hh
  have hmul0 : (0 : ℚ) ≤ (b : ℚ) * ((h : ℚ) / (count : ℚ)) := by positivity
  have hfloor : ⌊(b : ℚ) * ((h : ℚ) / (count : ℚ))⌋ + 1 ≤
      ⌊((b + 1 : ℕ) : ℚ) * ((h : ℚ) / (count : ℚ))⌋ := by
    have h1 : (b : ℚ) * ((h : ℚ) / (count : ℚ)) + 1 ≤
        ((b + 1 : ℕ) : ℚ) * ((h : ℚ) / (count : ℚ)) := by
      push_cast
      nlinarith
    calc ⌊(b : ℚ) * ((h : ℚ) / (count : ℚ))⌋ + 1
        = ⌊(b : ℚ) * ((h : ℚ) / (count : ℚ)) + 1⌋ := (Int.floor_add_one _).symm
      _ ≤ ⌊((b + 1 : ℕ) : ℚ) * ((h : ℚ) / (count : ℚ))⌋ := Int.floor_mono h1
  have h0 : 0 ≤ ⌊(b : ℚ) * ((h : ℚ) / (count : ℚ))⌋ := Int.floor_nonneg.mpr hmul0
  omega

theorem additiveBandCnt_pos (f : Frame) (p : Params) (i : ℕ)
    (hf : frameWF p f) (hi : i < p.oscillatorCount) :
    0 < additiveBandCnt f p.oscillatorCount i := by
  obtain ⟨_, hw, hh⟩ := hf
  have hlt := bandLowY_lt p.oscillatorCount f.height
    (bandIdx p.oscillatorCount i) hh (by omega)
  unfold additiveBandCnt
  exact Nat.mul_pos (by omega) hw

theorem chanAt_bounds {f : Frame} (hf : f.wfData) (c x y : ℕ) :
    0 ≤ chanAt f c x y ∧ chanAt f c x y ≤ 255 := hf _

theorem additiveTarget_ok (f : Frame) (p : Params) (i : ℕ)
    (hf : frameWF p f) (hi : i < p.oscillatorCount) :
    ∃ t, additiveTarget f p.oscillatorCount i = some t ∧ 0 ≤ t ∧ t ≤ 0.7 := by
  have hcnt := additiveBandCnt_pos f p i hf hi
  have hs := bandSum_le (bandLowY p.oscillatorCount f.height
      (bandIdx p.oscillatorCount i))
    (bandLowY p.oscillatorCount f.height (bandIdx p.oscillatorCount i + 1))
    f.width 255 (by norm_num) (fun x y => grayAt f x y)
    (fun x y => grayAt_bounds hf.1 x y)
  exact meanTarget_ok (additiveBandSum f p.oscillatorCount i)
    (additiveBandCnt f p.oscillatorCount i) hcnt hs.1 hs.2

theorem rgbTarget_ok (f : Frame) (p : Params) (i : ℕ)
    (hf : frameWF p f) (hi : i < p.oscillatorCount) :
    ∃ t, rgbTarget f p.oscillatorCount i = some t ∧ 0 ≤ t ∧ t ≤ 0.7 := by
  have hcnt := additiveBandCnt_pos f p i hf hi
  have hs := bandSum_le (bandLowY p.oscillatorCount f.height
      (bandIdx p.oscillatorCount i))
    (bandLowY p.oscillatorCount f.height (bandIdx p.oscillatorCount i + 1))
    f.width 255 (by norm_num)
    (fun x y => chanAt f (rgbChannel p.oscillatorCount i) x y)
    (fun x y => chanAt_bounds hf.1 _ x y)
  exact meanTarget_ok (rgbBandSum f p.oscillatorCount i)
    (additiveBandCnt f p.oscillatorCount i) hcnt hs.1 hs.2

theorem spectralTarget_ok (f : Frame) (p : Params) (i : ℕ)
    (hf : frameWF p f) :
    ∃ t, spectralTarget f p.oscillatorCount i = some t ∧ 0 ≤ t ∧ t ≤ 0.7 := by
  have hs := rowSum_le f.width
    (fun x => grayAt f x (spectralRowY p.oscillatorCount f.height i))
    (fun x => grayAt_bounds hf.1 x _)
  have h2 : spectralRowSum f p.oscillatorCount i ≤ 255 * (f.width : ℝ) := hs.2
  exact meanTarget_ok (spectralRowSum f p.oscillatorCount i) f.width hf.2.1
    hs.1 (by exact_mod_cast h2)

theorem pix_bounds {f : Frame} (hf : f.wfData) (x y : ℕ) :
    (0 ≤ pixR f x y ∧ pixR f x y ≤ 1) ∧
    (0 ≤ pixG f x y ∧ pixG f x y ≤ 1) ∧
    (0 ≤ pixB f x y ∧ pixB f x y ≤ 1) := by
  obtain ⟨h0a, h1a⟩ := hf (pixIdx f.width x y)
  obtain ⟨h0b, h1b⟩ := hf (pixIdx f.width x y + 1)
  obtain ⟨h0c, h1c⟩ := hf (pixIdx f.width x y + 2)
  unfold pixR pixG pixB
  refine ⟨⟨by positivity, ?_⟩, ⟨by positivity, ?_⟩, ⟨by positivity, ?_⟩⟩ <;>
  · rw [div_le_one (by norm_num)]
    linarith

theorem hsvSat_ok (r g b : ℝ) (hr : 0 ≤ r ∧ r ≤ 1) (hg : 0 ≤ g ∧ g ≤ 1)
    (hb : 0 ≤ b ∧ b ≤ 1) : 0 ≤ hsvSat r g b ∧ hsvSat r g b ≤ 1 := by
  have hmx0 : 0 ≤ max r (max g b) := le_trans hr.1 (le_max_left _ _)
  have hmn0 : 0 ≤ min r (min g b) := le_min hr.1 (le_min hg.1 hb.1)
  have hmn : min r (min g b) ≤ max r (max g b) :=
    le_trans (min_le_left _ _) (le_max_left _ _)
  unfold hsvSat
  by_cases h : max r (max g b) = 0
  · simp [h]
  · have hpos : 0 < max r (max g b) := lt_of_le_of_ne hmx0 (Ne.symm h)
    simp only [h, if_false]
    constructor
    · apply div_nonneg (by linarith) hmx0
    · rw [div_le_one hpos]
      linarith

theorem hsvVal_ok (r g b : ℝ) (hr : 0 ≤ r ∧ r ≤ 1) (hg : 0 ≤ g ∧ g ≤ 1)
    (hb : 0 ≤ b ∧ b ≤ 1) : 0 ≤ hsvVal r g b ∧ hsvVal r g b ≤ 1 := by
  unfold hsvVal
  exact ⟨le_trans hr.1 (le_max_left _ _), max_le hr.2 (max_le hg.2 hb.2)⟩

theorem hsvTarget_ok (f : Frame) (p : Params) (i : ℕ)
    (hf : frameWF p f) (hi : i < p.oscillatorCount) :
    ∃ t, hsvTarget f p.oscillatorCount i = some t ∧ 0 ≤ t ∧ t ≤ 0.7 := by
  have hcnt := additiveBandCnt_pos f p i hf hi
  have hcr : (0 : ℝ) < (additiveBandCnt f p.oscillatorCount i : ℝ) := by
    exact_mod_cast hcnt
  have hne : ((additiveBandCnt f p.oscillatorCount i : ℕ) : ℝ) ≠ 0 :=
    ne_of_gt hcr
  have hsat := bandSum_le (bandLowY p.oscillatorCount f.height
      (bandIdx p.oscillatorCount i))
    (bandLowY p.oscillatorCount f.height (bandIdx p.oscillatorCount i + 1))
    f.width 1 (by norm_num)
    (fun x y => hsvSat (pixR f x y) (pixG f x y) (pixB f x y))
    (fun x y => hsvSat_ok _ _ _ (pix_bounds hf.1 x y).1 (pix_bounds hf.1 x y).2.1
      (pix_bounds hf.1 x y).2.2)
  have hval := bandSum_le (bandLowY p.oscillatorCount f.height
      (bandIdx p.oscillatorCount i))
    (bandLowY p.oscillatorCount f.height (bandIdx p.oscillatorCount i + 1))
    f.width 1 (by norm_num)
    (fun x y => hsvVal (pixR f x y) (pixG f x y) (pixB f x y))
    (fun x y => hsvVal_ok _ _ _ (pix_bounds hf.1 x y).1 (pix_bounds hf.1 x y).2.1
      (pix_bounds hf.1 x y).2.2)
  have hs1 : 0 ≤ hsvBandSum f p.oscillatorCount i hsvSat := hsat.1
  have hs2 : hsvBandSum f p.oscillatorCount i hsvSat ≤
      (additiveBandCnt f p.oscillatorCount i : ℝ) := by
    have := hsat.2
    rw [one_mul] at this
    exact this
  have hv1 : 0 ≤ hsvBandSum f p.oscillatorCount i hsvVal := hval.1
  have hv2 : hsvBandSum f p.oscillatorCount i hsvVal ≤
      (additiveBandCnt f p.oscillatorCount i : ℝ) := by
    have := hval.2
    rw [one_mul] at this
    exact this
  refine ⟨hsvBandSum f p.oscillatorCount i hsvSat /
      (additiveBandCnt f p.oscillatorCount i : ℝ) *
    (hsvBandSum f p.oscillatorCount i hsvVal /
      (additiveBandCnt f p.oscillatorCount i : ℝ)) * 0.7, ?_, ?_, ?_⟩
  · simp [hsvTarget, jsDiv, jsMul, hne]
  · positivity
  · have ha : hsvBandSum f p.oscillatorCount i hsvSat /
        (additiveBandCnt f p.oscillatorCount i : ℝ) ≤ 1 := by
      rw [div_le_one hcr]
      exact hs2
    have hb : hsvBandSum f p.oscillatorCount i hsvVal /
        (additiveBandCnt f p.oscillatorCount i : ℝ) ≤ 1 := by
      rw [div_le_one hcr]
      exact hv2
    have ha0 : 0 ≤ hsvBandSum f p.oscillatorCount i hsvSat /
        (additiveBandCnt f p.oscillatorCount i : ℝ) := by positivity
    have hb0 : 0 ≤ hsvBandSum f p.oscillatorCount i hsvVal /
        (additiveBandCnt f p.oscillatorCount i : ℝ) := by positivity
    nlinarith

theorem scanlineSample_ok (f : Frame) (lc : ScanCoords) (i : ℕ)
    (hf : f.wfData) : 0 ≤ scanlineSample f lc i ∧ scanlineSample f lc i ≤ 1 := by
  unfold scanlineSample
  by_cases h : sampleInB f lc i
  · simp only [h, if_true]
    obtain ⟨h0, h1⟩ := grayAt_bounds hf (sampleXY lc i).1.toNat (sampleXY lc i).2.toNat
    constructor
    · positivity
    · rw [div_le_one (by norm_num)]
      linarith
  · simp [h]

theorem scanlineSamples_getD_ok (f : Frame) (lc : ScanCoords) (j : ℕ)
    (hf : f.wfData) : 0 ≤ (scanlineSamples f lc).getD j 0 ∧
      (scanlineSamples f lc).getD j 0 ≤ 1 := by
  rw [List.getD_eq_getElem?_getD]
  by_cases hj : j < 256
  · rw [show (scanlineSamples f lc)[j]? = some (scanlineSample f lc j) from by
      simp [scanlineSamples, List.getElem?_map, List.getElem?_range, hj]]
    exact scanlineSample_ok f lc j hf
  · rw [show (scanlineSamples f lc)[j]? = none from by
      apply List.getElem?_eq_none
      simp only [scanlineSamples, List.length_map, List.length_range]
      omega]
    norm_num

theorem scanlineTarget_ok (f : Frame) (lc : ScanCoords) (count i : ℕ)
    (hf : f.wfData) : 0 ≤ scanlineTarget (scanlineSamples f lc) count i ∧
      scanlineTarget (scanlineSamples f lc) count i ≤ 0.7 := by
  obtain ⟨h0, h1⟩ := scanlineSamples_getD_ok f lc (scanSampleIdx count i) hf
  unfold scanlineTarget
  constructor
  · positivity
  · nlinarith

theorem scChanAmp_ok (f : Frame) (lc : ScanCoords) (c : ℕ)
    (hf : f.wfData) (hc : 0 < scCount f lc) :
    0 ≤ scChanAmp f lc c ∧ scChanAmp f lc c ≤ 0.7 := by
  have hcr : (0 : ℝ) < (scCount f lc : ℝ) := by exact_mod_cast hc
  have h0 : 0 ≤ scChanSum f lc c :=
    Finset.sum_nonneg fun i _ => (hf _).1
  have h1 : scChanSum f lc c ≤ (scCount f lc : ℝ) * 255 := by
    have h := Finset.sum_le_card_nsmul
      ((Finset.range 256).filter (fun i => sampleInB f lc i))
      (fun i => f.data (pixIdx f.width (sampleXY lc i).1.toNat
        (sampleXY lc i).2.toNat + c)) 255 (fun i _ => (hf _).2)
    simpa [scChanSum, scCount, nsmul_eq_mul] using h
  unfold scChanAmp
  constructor
  · positivity
  · have h2 : scChanSum f lc c / (scCount f lc : ℝ) ≤ 255 := by
      rw [div_le_iff₀ hcr]
      linarith
    have h3 : 0 ≤ scChanSum f lc c / (scCount f lc : ℝ) := by positivity
    nlinarith

theorem scTargetAmp_ok (f : Frame) (lc : ScanCoords) (count i : ℕ)
    (hf : f.wfData) (hc : 0 < scCount f lc) :
    0 ≤ scTargetAmp f lc count i ∧ scTargetAmp f lc count i ≤ 0.7 := by
  unfold scTargetAmp
  split
  · exact scChanAmp_ok f lc 0 hf hc
  · split
    · exact scChanAmp_ok f lc 1 hf hc
    · exact scChanAmp_ok f lc 2 hf hc

theorem pulse_upd_ok (em pv : ℝ) (a : Option ℝ)
    (ha : ∃ x, a = some x ∧ 0 ≤ x ∧ x ≤ 0.7) :
    ∃ x, (if max 0 (em - pv) > 0.02
        then some (min 0.7 (max 0 (em - pv) * 5))
        else jsMul a (some 0.85)) = some x ∧ 0 ≤ x ∧ x ≤ 0.7 := by
  obtain ⟨x, rfl, hx0, hx1⟩ := ha
  by_cases h : max 0 (em - pv) > 0.02
  · have hd : 0 ≤ max 0 (em - pv) := le_max_left _ _
    exact ⟨min 0.7 (max 0 (em - pv) * 5), by rw [if_pos h],
      le_min (by norm_num) (by nlinarith), min_le_left _ _⟩
  · exact ⟨x * 0.85, by rw [if_neg h]; rfl, by nlinarith, by nlinarith⟩

theorem inv_loopMap (amps : List (Option ℝ)) (g : ℕ → Option ℝ → Option ℝ)
    (hg : ∀ i a, (∃ x, a = some x ∧ 0 ≤ x ∧ x ≤ 0.7) →
      ∃ x, g i a = some x ∧ 0 ≤ x ∧ x ≤ 0.7)
    (hinv : ∀ a ∈ amps, ∃ x, a = some x ∧ 0 ≤ x ∧ x ≤ 0.7) :
    ∀ a ∈ loopMap g 0 amps, ∃ x, a = some x ∧ 0 ≤ x ∧ x ≤ 0.7 := by
  intro a ha
  obtain ⟨i, b, hb, rfl⟩ := loopMap_mem ha
  exact hg _ _ (hinv b (mem_of_getElemOpt hb))

theorem ema_upd_ok (alpha : ℝ) (h0 : 0 ≤ alpha) (h1 : alpha ≤ 1)
    (target : Option ℝ) (ht : ∃ t, target = some t ∧ 0 ≤ t ∧ t ≤ 0.7)
    (a : Option ℝ) (ha : ∃ x, a = some x ∧ 0 ≤ x ∧ x ≤ 0.7) :
    ∃ x, emaJs alpha a target = some x ∧ 0 ≤ x ∧ x ≤ 0.7 := by
  obtain ⟨t, rfl, ht0, ht1⟩ := ht
  obtain ⟨x, rfl, hx0, hx1⟩ := ha
  rw [emaJs_some]
  exact ⟨_, rfl, ema_ok alpha x t h0 h1 ⟨hx0, hx1⟩ ⟨ht0, ht1⟩⟩

theorem synthStep_not_playing (m : Mode) (s : EngineState) (f : Frame)
    (p : Params) (now : ℝ) (hp : s.isPlaying = false) :
    synthStep m s f p now = s := by
  cases m <;>
    simp [synthStep, synthesizeAdditive, synthesizeSpectral,
      synthesizeRGBAdditive, synthesizeHSV, synthesizePulse,
      synthesizeScanline, synthesizeScanlineColor, hp]

theorem synthStep_preserves (m : Mode) (s : EngineState) (f : Frame)
    (p : Params) (now : ℝ) (hf : frameWF p f)
    (hinv : ampInvariant s) : ampInvariant (synthStep m s f p now) := by
  unfold ampInvariant at hinv ⊢
  rcases hp : s.isPlaying with _ | _
  · rw [synthStep_not_playing m s f p now hp]
    exact hinv
  · cases m with
    | additive =>
        rw [show (synthStep Mode.additive s f p now).amplitudes =
            loopMap (fun i a => if i < p.oscillatorCount
              then emaJs 0.8 a (additiveTarget f p.oscillatorCount i) else a)
              0 s.amplitudes from by simp [synthStep, synthesizeAdditive, hp]]
        refine inv_loopMap s.amplitudes _ ?_ hinv
        intro i a' ha'
        by_cases hi : i < p.oscillatorCount
        · simp only [hi, if_true]
          exact ema_upd_ok 0.8 (by norm_num) (by norm_num) _
            (additiveTarget_ok f p i hf hi) a' ha'
        · simpa [hi] using ha'
    | spectral =>
        rw [show (synthStep Mode.spectral s f p now).amplitudes =
            loopMap (fun i a => if i < p.oscillatorCount
              then emaJs 0.8 a (spectralTarget f p.oscillatorCount i) else a)
              0 s.amplitudes from by simp [synthStep, synthesizeSpectral, hp]]
        refine inv_loopMap s.amplitudes _ ?_ hinv
        intro i a' ha'
        by_cases hi : i < p.oscillatorCount
        · simp only [hi, if_true]
          exact ema_upd_ok 0.8 (by norm_num) (by norm_num) _
            (spectralTarget_ok f p i hf) a' ha'
        · simpa [hi] using ha'
    | rgbAdditive =>
        rw [show (synthStep Mode.rgbAdditive s f p now).amplitudes =
            loopMap (fun i a => if i < p.oscillatorCount
              then emaJs 0.8 a (rgbTarget f p.oscillatorCount i) else a)
              0 s.amplitudes from by simp [synthStep, synthesizeRGBAdditive, hp]]
        refine inv_loopMap s.amplitudes _ ?_ hinv
        intro i a' ha'
        by_cases hi : i < p.oscillatorCount
        · simp only [hi, if_true]
          exact ema_upd_ok 0.8 (by norm_num) (by norm_num) _
            (rgbTarget_ok f p i hf hi) a' ha'
        · simpa [hi] using ha'
    | hsv =>
        rw [show (synthStep Mode.hsv s f p now).amplitudes =
            loopMap (fun i a => if i < p.oscillatorCount
              then emaJs 0.8 a (hsvTarget f p.oscillatorCount i) else a)
              0 s.amplitudes from by simp [synthStep, synthesizeHSV, hp]]
        refine inv_loopMap s.amplitudes _ ?_ hinv
        intro i a' ha'
        by_cases hi : i < p.oscillatorCount
        · simp only [hi, if_true]
          exact ema_upd_ok 0.8 (by norm_num) (by norm_num) _
            (hsvTarget_ok f p i hf hi) a' ha'
        · simpa [hi] using ha'
    | pulse =>
        rw [show (synthStep Mode.pulse s f p now).amplitudes =
            loopMap (fun i a => if i < p.oscillatorCount
              then (if max 0 (pulseEdgeMag f p.oscillatorCount i -
                  (s.prevEdgeMagnitudes.getD i none).getD 0) > 0.02
                then some (min 0.7 (max 0 (pulseEdgeMag f p.oscillatorCount i -
                  (s.prevEdgeMagnitudes.getD i none).getD 0) * 5))
                else jsMul a (some 0.85))
              else a) 0 s.amplitudes from by simp [synthStep, synthesizePulse, hp]]
        refine inv_loopMap s.amplitudes _ ?_ hinv
        intro i a' ha'
        by_cases hi : i < p.oscillatorCount
        · simp only [hi, if_true]
          exact pulse_upd_ok _ _ a' ha'
        · simpa [hi] using ha'
    | scanline =>
        rw [show (synthStep Mode.scanline s f p now).amplitudes =
            loopMap (fun i a => if i < p.oscillatorCount
              then emaJs 0.7 a (some (scanlineTarget
                (scanlineSamples f (scanlineEndpoints (f.width : ℝ)
                  (f.height : ℝ) p.angle
                  (advanceScanPos s.scanPosition s.lastFrameTime now p.speed)))
                p.oscillatorCount i)) else a)
              0 s.amplitudes from by simp [synthStep, synthesizeScanline, hp]]
        refine inv_loopMap s.amplitudes _ ?_ hinv
        intro i a' ha'
        by_cases hi : i < p.oscillatorCount
        · simp only [hi, if_true]
          refine ema_upd_ok 0.7 (by norm_num) (by norm_num) _ ?_ a' ha'
          obtain ⟨h0, h1⟩ := scanlineTarget_ok f _ p.oscillatorCount i hf.1
          exact ⟨_, rfl, h0, h1⟩
        · simpa [hi] using ha'
    | scanlineColor =>
        by_cases hc : 0 < scCount f (scanlineEndpoints (f.width : ℝ)
            (f.height : ℝ) p.angle
            (advanceScanPos s.scanPosition s.lastFrameTime now p.speed))
        · rw [show (synthStep Mode.scanlineColor s f p now).amplitudes =
              loopMap (fun i a => if i < p.oscillatorCount
                then emaJs 0.8 a (some (scTargetAmp f
                  (scanlineEndpoints (f.width : ℝ) (f.height : ℝ) p.angle
                    (advanceScanPos s.scanPosition s.lastFrameTime now p.speed))
                  p.oscillatorCount i)) else a)
                0 s.amplitudes from by
              simp [synthStep, synthesizeScanlineColor, hp, hc]]
          refine inv_loopMap s.amplitudes _ ?_ hinv
          intro i a' ha'
          by_cases hi : i < p.oscillatorCount
          · simp only [hi, if_true]
            refine ema_upd_ok 0.8 (by norm_num) (by norm_num) _ ?_ a' ha'
            obtain ⟨h0, h1⟩ := scTargetAmp_ok f _ p.oscillatorCount i hf.1 hc
            exact ⟨_, rfl, h0, h1⟩
          · simpa [hi] using ha'
        · rw [show (synthStep Mode.scanlineColor s f p now).amplitudes =
              s.amplitudes from by
              simp [synthStep, synthesizeScanlineColor, hp, hc]]
          exact hinv

theorem runSteps_preserves (calls : List (Mode × Frame × ℝ)) (p : Params)
    (s : EngineState) (hframes : ∀ c ∈ calls, frameWF p c.2.1)
    (hinv : ampInvariant s) : ampInvariant (runSteps calls p s) := by
  induction calls generalizing s with
  | nil => simpa [runSteps] using hinv
  | cons c t ih =>
      rw [show runSteps (c :: t) p s =
          runSteps t p (synthStep c.1 s c.2.1 p c.2.2) from by
        simp [runSteps]]
      exact ih _ (fun d hd => hframes d (List.mem_cons_of_mem c hd))
        (synthStep_preserves c.1 s c.2.1 p c.2.2
          (hframes c (List.mem_cons_self c t)) hinv)

theorem additiveTarget_black1_none : additiveTarget blackFrame1 2 1 = none := by
  have hcnt : additiveBandCnt blackFrame1 2 1 = 0 := by
    unfold additiveBandCnt
    norm_num [bandLowY, bandIdx, blackFrame1]
  unfold additiveTarget
  rw [hcnt]
  simp [jsDiv, jsMul]

/-- Counterexample for C5 as stated: in additive mode with 2 oscillators
on a 1×1 frame (all channel values in `[0, 255]`), oscillator 1's
zero-area band makes its smoothed amplitude non-finite (`NaN`) after one
call, so it does not lie in `[0, 0.7]`. -/
theorem c5_nan_amplitude_counterexample :
    ¬ (∀ a ∈ (synthStep Mode.additive state2 blackFrame1 params2 0).amplitudes,
        ∃ x, a = some x ∧ 0 ≤ x ∧ x ≤ 0.7) := by
  have h1 : (synthStep Mode.additive state2 blackFrame1 params2 0).amplitudes[1]? =
      some none := by
    rw [show synthStep Mode.additive state2 blackFrame1 params2 0 =
      synthesizeAdditive state2 blackFrame1 params2 from rfl]
    rw [additive_amp state2 blackFrame1 params2 1 rfl]
    rw [show state2.amplitudes[1]? = some (some 0) from rfl]
    have hlt : (1 : ℕ) < params2.oscillatorCount := by decide
    have h2 : params2.oscillatorCount = 2 := rfl
    simp [hlt, h2, additiveTarget_black1_none, emaJs_none_right]
  intro hcl
  obtain ⟨x, hx, _⟩ := hcl none (mem_of_getElemOpt h1)
  exact Option.noConfusion hx

/-- C5 (amended): for every mode, every zeroed initial bank and every
finite sequence of synthesis calls on frames whose channel values lie in
`[0, 255]` and that additionally have at least one column and at least
one row per oscillator band (so that no region is zero-area), after
every call every smoothed amplitude is a finite value in `[0, 0.7]`.
(Each prefix of a call sequence is itself such a sequence, so the
invariant holds after every intermediate call.) -/
theorem c5_amplitude_bounds (calls : List (Mode × Frame × ℝ)) (p : Params)
    (s0 : EngineState) (n : ℕ)
    (hz : s0.amplitudes = List.replicate n (some 0))
    (hframes : ∀ c ∈ calls, frameWF p c.2.1) :
    ampInvariant (runSteps calls p s0) := by
  have hinv0 : ampInvariant s0 := by
    unfold ampInvariant
    rw [hz]
    intro a ha
    rw [List.eq_of_mem_replicate ha]
    exact ⟨0, rfl, le_refl 0, by norm_num⟩
  exact runSteps_preserves calls p s0 hframes hinv0

/-- Witness for C5's amended theorem: one additive call on a 1×1 white
frame with a single zeroed oscillator. -/
theorem c5_amplitude_bounds_witness :
    ampInvariant (runSteps [(Mode.additive, whiteFrame1, 0)] params1 state1) := by
  apply c5_amplitude_bounds [(Mode.additive, whiteFrame1, 0)] params1 state1 1 rfl
  intro c hc
  rw [List.mem_singleton.mp hc]
  exact ⟨fun n => by norm_num [whiteFrame1], by norm_num [whiteFrame1],
    by norm_num [whiteFrame1, params1]⟩
